import Mathlib

/-!
Verification of the conda-ops lock/consistency core against its specification.

The definitions below are a shallow embedding of the Python sources:
  * `src/requirements.py` (the `LockSpec` record and its predicates),
  * `src/conda_ops/commands_env.py` (`json_to_explicit`,
    `generate_explicit_lock_files`, `conda_step_env_lock`, `env_lockfile_check`),
  * `src/conda_ops/commands.py` and `src/commands.py` (`lockfile_generate`),
  * `src/split_requirements.py` (`env_split`),
  * `src/commands.py` (`reqs_check`),
  * `src/conda_ops/commands_lockfile.py` (`lockfile_reqs_check`).
External collaborators (the conda/pip resolvers, version-range evaluation,
spec parsing) are modelled as oracle parameters, exactly as the spec
delegates them.
-/

namespace CondaOps

/-- Python's `sub in s` substring test on strings. -/
def strContains (s sub : String) : Bool := decide (sub.data <:+: s.data)

/-- Python truthiness of an optional string (`None` and `""` are falsy). -/
def optTruthy : Option String → Bool
  | some s => !s.isEmpty
  | none => false

/-- Python's `s.split("::")` on the character list (structural recursion so
that concrete instances evaluate). -/
def splitCC : List Char → List (List Char)
  | [] => [[]]
  | [c] => [[c]]
  | c1 :: c2 :: rest =>
    if c1 = ':' && c2 = ':' then [] :: splitCC rest
    else
      match splitCC (c2 :: rest) with
      | [] => [[c1]]
      | h :: t => (c1 :: h) :: t

/-- Python's `s.split("::")`. -/
def pySplitColons (s : String) : List String :=
  (splitCC s.data).map fun l => String.mk l

/-- Python's `s.split("\n")` on the character list. -/
def splitNL : List Char → List (List Char)
  | [] => [[]]
  | c :: rest =>
    if c = '\n' then [] :: splitNL rest
    else
      match splitNL rest with
      | [] => [[c]]
      | h :: t => (c :: h) :: t

/-- Python's `s.split("\n")`. -/
def pySplitLines (s : String) : List String :=
  (splitNL s.data).map fun l => String.mk l

/-!
## LockSpec (src/requirements.py)

`LockSpec` wraps a plain `info_dict`; the fields below are the keys the
source reads.  `channel` and `url` are read with `info_dict.get(..., None)`
(hence `Option`), `name`/`version`/`manager` with mandatory indexing.
`sha256` and `md5` model `info_dict["hash"]["sha256"]` / `["md5"]`
(the `sha256_hash` / `md5_hash` properties, `None` when absent).
-/

structure LockSpecData where
  name : String
  version : String
  manager : String
  channel : Option String
  url : Option String
  sha256 : Option String
  md5 : Option String
deriving DecidableEq

/-- `LockSpec.check_consistency` (src/requirements.py lines 151-170).
`check` starts `True`; for a conda-managed entry with a truthy url every
truthy value among `name`, `version`, `channel` must occur in the url
(the `for key in ["name", "version", "channel"]` loop is unrolled into the
three conjuncts); a truthy channel must agree with the manager
(pip entries must have channel `pypi`, conda entries must not). -/
def check_consistency (p : LockSpecData) : Bool :=
  let urlCheck :=
    if p.manager == "conda" then
      match p.url with
      | some u =>
        if u.isEmpty then true
        else
          (if !p.name.isEmpty then strContains u p.name else true) &&
          (if !p.version.isEmpty then strContains u p.version else true) &&
          (match p.channel with
           | some c => if !c.isEmpty then strContains u c else true
           | none => true)
      | none => true
    else true
  let channelCheck :=
    match p.channel with
    | some c =>
      if c.isEmpty then true
      else
        (!(p.manager == "pip" && c != "pypi")) &&
        (!(p.manager == "conda" && c == "pypi"))
    | none => true
  urlCheck && channelCheck

/-- `LockSpec.to_explicit` (src/requirements.py lines 172-186).
`none` is the error path: a `TypeError` from concatenating `None` is caught,
an error is logged and the function returns `None` instead of a line.
For a pip entry with a url but no sha256 hash, Python's f-string renders
the literal text `None` into the line (no exception is raised). -/
def to_explicit (p : LockSpecData) : Option String :=
  if p.manager == "conda" then
    match p.url, p.md5 with
    | some u, some m => some (u ++ "#" ++ m)
    | _, _ => none
  else if p.manager == "pip" then
    match p.url with
    | some u =>
      some (p.name ++ " @ " ++ u ++ " --hash=sha256:" ++
            (match p.sha256 with | some s => s | none => "None"))
    | none => none
  else none

/-- Modelled from the spec: the conda-ops revision of `requirements.py`
(defining the `LockSpec.hash_exists` property used by `json_to_explicit` in
src/conda_ops/commands_env.py) is not under src/.  Per spec section 4.5, the
secondary (pip) manager's entries are split into a file for entries "with a
usable content hash" and one for entries without; conda entries carry an md5
from `conda list --explicit --md5`.  So `hash_exists` holds exactly when the
manager's hash field is present. -/
def hash_exists (p : LockSpecData) : Bool :=
  if p.manager == "pip" then p.sha256.isSome else p.md5.isSome

/-- One iteration of `json_to_explicit`'s loop over the lock entries. -/
def jteStep (package_manager : String) (hashExists : Bool)
    (acc : Except Unit String) (p : LockSpecData) : Except Unit String :=
  match acc with
  | .error e => .error e
  | .ok s =>
    if check_consistency p then
      if p.manager == package_manager then
        if hashExists == hash_exists p then
          match to_explicit p with
          | some line => .ok (s ++ line ++ "\n")
          | none => .error ()
        else .ok s
      else .ok s
    else .error ()

/-- `json_to_explicit` (src/conda_ops/commands_env.py lines 589-606).
Entries failing `check_consistency` abort the whole conversion
(`sys.exit(1)`); an entry selected for rendering whose `to_explicit` errors
makes `explicit_str += None + "\n"` raise a `TypeError` (also fatal).  Both
fatal outcomes are collapsed into the single error value. -/
def json_to_explicit (json_list : List LockSpecData) (package_manager : String)
    (hashExists : Bool) : Except Unit String :=
  json_list.foldl (jteStep package_manager hashExists) (Except.ok "")

/-- The fixed header written at the top of the conda explicit lock file
(src/conda_ops/commands_env.py lines 622-623; the backslash line
continuation keeps the four leading spaces of the second line). -/
def explicitHeader : String :=
  "# This file may be used to create an environment using:\n    # $ conda create --name <env> --file <this file>\n@EXPLICIT\n"

/-- The pure core of `generate_explicit_lock_files`
(src/conda_ops/commands_env.py lines 609-642): from the parsed lock file
produce the conda explicit file contents and, for each of
`hash_exists in [True, False]`, the pip explicit file contents when the
rendered string is non-empty (`len(pip_reqs) > 0`). -/
def render_explicit (json_reqs : List LockSpecData) :
    Except Unit (String × Option String × Option String) :=
  match json_to_explicit json_reqs "conda" true with
  | .error e => .error e
  | .ok condaBody =>
    match json_to_explicit json_reqs "pip" true with
    | .error e => .error e
    | .ok pipTrue =>
      match json_to_explicit json_reqs "pip" false with
      | .error e => .error e
      | .ok pipFalse =>
        .ok (explicitHeader ++ condaBody,
             (if pipTrue.isEmpty then none else some pipTrue),
             (if pipFalse.isEmpty then none else some pipFalse))

/-!
## Manifest splitter (src/split_requirements.py)

A dependency list entry is either a plain/qualified spec string or a nested
yaml mapping; the only mapping the code looks at is the one whose `pip` key
is truthy.  `env_split` iterates over an enumerated *copy* of the
dependency list while mutating the original via `pop(k)` (the pip case) and
`remove(dep)` (the channel-qualified case); the loop below replays exactly
those CPython list semantics, including `IndexError` from `pop` and
`ValueError` from `remove`.
-/

inductive Dep
  | str (s : String)
  | dict (pip : Option (List String))
deriving DecidableEq

/-- Python truthiness of `dep.get("pip", None)` for a nested mapping. -/
def pipTruthy : Dep → Bool
  | .dict (some l) => !l.isEmpty
  | .dict none => false
  | .str _ => false

/-- A channel-qualified spec string: `dep.split("::")` has length greater
than one. -/
def isQualified : Dep → Bool
  | .str s => (pySplitColons s).length > 1
  | .dict _ => false

/-- Python's `enumerate`, starting at index `n`. -/
def pyEnumFrom (n : Nat) : List Dep → List (Nat × Dep)
  | [] => []
  | d :: rest => (n, d) :: pyEnumFrom (n + 1) rest

/-- `list.pop(k)`: the element at index `k` and the list with it removed;
`none` models `IndexError`. -/
def popAt : List Dep → Nat → Option (Dep × List Dep)
  | [], _ => none
  | x :: xs, 0 => some (x, xs)
  | x :: xs, k + 1 =>
    match popAt xs k with
    | some (y, ys) => some (y, x :: ys)
    | none => none

/-- `list.remove(x)`: drop the first occurrence; `none` models
`ValueError` when `x` is absent. -/
def removeFirst (l : List Dep) (d : Dep) : Option (List Dep) :=
  if d ∈ l then some (l.erase d) else none

inductive SplitError
  | channelMissing (channel dep : String)
  | indexError
  | valueError
  | keyError
deriving DecidableEq

/-- The final `channel_dict` together with the remaining `conda_env`
dependency list.  `chans` holds the per-channel lists built by the
`defaultdict` appends; `pipVal` is the value stored under the `pip` key by
`channel_dict["pip"] = deplist.pop(k)`; `defaults` is the remaining
`deplist` assigned to `channel_dict["defaults"]` at the end (those two
assignments override any `pip`/`defaults` entries of `chans`). -/
structure SplitResult where
  chans : String → List String
  pipVal : Option Dep
  defaults : List Dep

/-- Pointwise update of a `defaultdict(list)`. -/
def updateChan (f : String → List String) (k : String) (v : List String) :
    String → List String :=
  fun x => if x = k then v else f x

/-- The body of `env_split`'s `for k, dep in enumerate(deplist[:])` loop
(src/split_requirements.py lines 30-41), processing the enumerated copy
while carrying the mutated `deplist`. -/
def envSplitLoop (channel_order : List String) :
    List (Nat × Dep) → List Dep → (String → List String) → Option Dep →
    Except SplitError (List Dep × (String → List String) × Option Dep)
  | [], deplist, chans, pipVal => .ok (deplist, chans, pipVal)
  | (k, dep) :: rest, deplist, chans, pipVal =>
    match dep with
    | .dict p =>
      if pipTruthy (.dict p) then
        match popAt deplist k with
        | some (x, dl) => envSplitLoop channel_order rest dl chans (some x)
        | none => .error .indexError
      else envSplitLoop channel_order rest deplist chans pipVal
    | .str s =>
      match pySplitColons s with
      | c :: p1 :: _ =>
        if c ∈ channel_order then
          match removeFirst deplist (.str s) with
          | some dl =>
            envSplitLoop channel_order rest dl
              (updateChan chans c (chans c ++ [p1])) pipVal
          | none => .error .valueError
        else .error (.channelMissing c s)
      | _ => envSplitLoop channel_order rest deplist chans pipVal

/-- The manifest data `env_split` touches: the `dependencies` list and
whether the `channel-order` key is present (`conda_env.pop("channel-order")`
raises `KeyError` when it is not).  The other manifest keys are returned
untouched and are not modelled. -/
structure CondaEnvFile where
  dependencies : List Dep
  hasChannelOrder : Bool

/-- `env_split` (src/split_requirements.py lines 10-46). -/
def env_split (conda_env : CondaEnvFile) (channel_order : List String) :
    Except SplitError SplitResult :=
  match envSplitLoop channel_order (pyEnumFrom 0 conda_env.dependencies)
      conda_env.dependencies (fun _ => []) none with
  | .error e => .error e
  | .ok (deplist, chans, pipVal) =>
    if conda_env.hasChannelOrder then
      .ok ⟨chans, pipVal, deplist⟩
    else .error .keyError

/-!
## Staged lock-generation pipeline
(`lockfile_generate` in src/conda_ops/commands.py lines 39-129 and
src/commands.py lines 420-491; `conda_step_env_lock` in
src/conda_ops/commands_env.py lines 191-232 and src/commands.py)

Each stage is driven by the data the Python code consumes: the split
per-channel package list, the external resolver's exit status, and the
cumulative environment enumeration that `env_lock` would write as this
stage's lock segment.  A stage step returns `none` exactly when the Python
function returns `None` (resolver failure); an empty package list
short-circuits to the empty dict `{}` (modelled `some []`) before anything
is installed or written.
-/

structure StageInput where
  channel : String
  pkgs : List String
  installOk : Bool
  envState : List LockSpecData
deriving DecidableEq

/-- `conda_step_env_lock`: empty package list returns `{}` without touching
the environment or writing a stage lock file; a failed install/create
returns `None`; otherwise `env_lock` re-enumerates the whole environment
and writes it to `.ops.lock.<channel>`. -/
def conda_step_env_lock (si : StageInput) : Option (List LockSpecData) :=
  if si.pkgs.isEmpty then some []
  else if si.installOk then some si.envState
  else none

/-- The on-disk state `lockfile_generate` manipulates: the managed
(merged) lock file and the intermediate `.ops.lock.<channel>` files. -/
structure GenState where
  mergedLock : Option (List LockSpecData)
  stageFiles : String → Option (List LockSpecData)

inductive GenOutcome
  | fatal
  | halted (lastGood : String)
  | copyFailed (lastGood : String)
  | noChannels
  | completed (lastGood : String)

/-- One pointwise file write. -/
def writeStage (f : String → Option (List LockSpecData)) (ch : String)
    (seg : List LockSpecData) : String → Option (List LockSpecData) :=
  fun x => if x = ch then some seg else f x

/-- The `for i, channel in enumerate(order_list)` loop of
`lockfile_generate` followed by the `shutil.copy` merge.  `prev` is
`order_list[i-1]` (`none` at the first stage).  On a step failure the code
logs the last good channel and calls `sys.exit(1)` *before* the copy, so
the merged lock file is left as it was; on completion the last good
channel's intermediate lock file is copied over the merged lock file
(`copyFailed` is `shutil.copy`'s `FileNotFoundError` when that intermediate
file was never written, `noChannels` the `NameError` on an empty order
list).  The trailing clean-up `unlink`s do not touch the merged lock file
and are not modelled. -/
def genLoop (stages : List StageInput) (prev : Option String) (st : GenState) :
    GenOutcome × GenState :=
  match stages with
  | [] =>
    match prev with
    | some ch =>
      match st.stageFiles ch with
      | some seg => (.completed ch, { st with mergedLock := some seg })
      | none => (.copyFailed ch, st)
    | none => (.noChannels, st)
  | si :: rest =>
    match conda_step_env_lock si with
    | none =>
      match prev with
      | none => (.fatal, st)
      | some ch => (.halted ch, st)
    | some seg =>
      let files :=
        if si.pkgs.isEmpty then st.stageFiles
        else writeStage st.stageFiles si.channel seg
      genLoop rest (some si.channel) { st with stageFiles := files }

/-- `lockfile_generate`, starting from the current merged lock file
contents and no intermediate stage files. -/
def lockfile_generate (stages : List StageInput)
    (lock0 : Option (List LockSpecData)) : GenOutcome × GenState :=
  genLoop stages none ⟨lock0, fun _ => none⟩

/-!
## Requirements check (`reqs_check`, src/commands.py lines 314-410)

The spec-validation and canonicalization segment (lines 349-402).  Parsing
and canonicalization are delegated to the external `MatchSpec` /
`Requirement` classes, modelled as oracles returning `none` on a parse
error and otherwise the pair `(str(req), req.name)`.  A requirements file
whose `name` field matches the managed environment is assumed (the
interactive rename branch, lines 329-340, is outside this model), as is a
present `dependencies` section.
-/

/-- A dependencies-list entry of the requirements yaml: a spec string or a
nested mapping (only its `pip` key matters). -/
inductive RDep
  | spec (s : String)
  | pipMap (pip : Option (List String))
deriving DecidableEq

/-- `pop_pip_section` (src/commands.py lines 1568-1583): pop the first
nested mapping with a truthy `pip` key (the `break` makes the mutation
while enumerating safe here). -/
def pop_pip_section : List RDep → List RDep × Option (List String)
  | [] => ([], none)
  | d :: rest =>
    match d with
    | .pipMap (some l) =>
      if !l.isEmpty then (rest, some l)
      else
        let (r, p) := pop_pip_section rest
        (.pipMap (some l) :: r, p)
    | _ =>
      let (r, p) := pop_pip_section rest
      (d :: r, p)

/-- Result of one pass over a spec list with a parse oracle:
`(valid canonical specs, names, any invalid?, any non-canonical?)`. -/
def scanSpecs (parse : String → Option (String × String)) :
    List String → List String × List String × Bool × Bool
  | [] => ([], [], false, false)
  | s :: rest =>
    let (vs, ns, inv, upd) := scanSpecs parse rest
    match parse s with
    | some (canon, nm) => (canon :: vs, nm :: ns, inv, upd || canon != s)
    | none => (vs, ns, true, upd)

/-- Names appearing more than once (`check_for_duplicates` returns a
non-empty dict exactly on this condition). -/
def hasDuplicates (names : List String) : Bool :=
  names.any fun n => 1 < names.count n

/-- The file-write attempted by the canonicalization rewrite.  The source
opens the requirements file in read mode (`with open(requirements_file,
"r")`, src/commands.py line 401) and then calls `yaml.dump` on that
handle, so the dump raises `io.UnsupportedOperation` and the file is never
modified; `FileMode.read` reproduces that. -/
inductive FileMode
  | read
  | write

def dumpTo (mode : FileMode) (new : List RDep) : Except Unit (List RDep) :=
  match mode with
  | .write => .ok new
  | .read => .error ()

/-- `reqs_check`'s spec-handling segment (src/commands.py lines 341-402,
identical in src/commands_reqs.py lines 237-293).  The result is the
returned boolean together with the requirements file's dependency section
after the call; `.error` is an uncaught exception (the file is left
unchanged in that case).  A mapping entry left among the conda deps is fed
to `MatchSpec`, which raises, i.e. parses as invalid. -/
def reqs_check (condaParse pipParse : String → Option (String × String))
    (deps : Option (List RDep)) : Except Unit Bool × Option (List RDep) :=
  match deps with
  | none => (.error (), none)
  | some deps =>
    let (conda_deps, pip_section) := pop_pip_section deps
    let condaTexts := conda_deps.map fun d =>
      match d with
      | .spec s => some s
      | .pipMap _ => none
    let (valid_specs, conda_names, condaInvalid, condaUpd) :=
      scanSpecs (fun s => condaParse s)
        (condaTexts.map fun t => t.getD "\x00not-a-spec")
    let (valid_pip_specs, pip_names, pipInvalid, pipUpd) :=
      scanSpecs pipParse (pip_section.getD [])
    let anyInvalid := condaInvalid || pipInvalid
    let update := condaUpd || pipUpd
    let dups := hasDuplicates (conda_names ++ pip_names)
    let check := !anyInvalid && !dups
    if check && update then
      let newDeps :=
        if !valid_pip_specs.isEmpty then
          RDep.pipMap (some valid_pip_specs) :: (valid_specs.map RDep.spec)
        else valid_specs.map RDep.spec
      match dumpTo .read newDeps with
      | .ok written => (.ok check, some written)
      | .error e => (.error e, some deps)
    else (.ok check, some deps)

/-!
## Lockfile vs requirements check
(`lockfile_reqs_check`, src/conda_ops/commands_lockfile.py lines 102-184)

The requirement entries are taken as already split per channel
(`env_split`'s output) and parsed (`PackageSpec`): `name`, an optional
version constraint, and for pip path/VCS requirements the raw spec text.
Version-range evaluation is delegated: `pipSat c v` models
`parse(v) in SpecifierSet(c)` (`c = ""` for a constraint-less pip
requirement) and `condaSat v c` models `ver_eval(v, c)`.
-/

structure ReqPkg where
  name : String
  isPath : Bool
  pathText : String
  constraint : Option String
deriving DecidableEq

/-- The inner scan over `lock_dict` for one requirement, returning the
packages appended to `missing_packages` for it.  For a path requirement
the loop scans every entry without breaking and never checks a version;
otherwise the first name match breaks the loop (`List.find?`) and the
version of that entry is checked. -/
def missingFor (pipSat : String → String → Bool)
    (condaSat : String → String → Bool) (lock : List LockSpecData)
    (channel : String) (p : ReqPkg) : Bool :=
  if p.isPath then
    !(lock.any fun lp => strContains (lp.url.getD "") p.pathText)
  else
    match lock.find? (fun lp => lp.name == p.name) with
    | none => true
    | some lp =>
      if channel == "pip" then !pipSat (p.constraint.getD "") lp.version
      else
        match p.constraint with
        | some c => !condaSat lp.version c
        | none => false

/-- `lockfile_reqs_check`: with both upstream checks passed, the result is
`True` iff the requirements file is not newer than the lock file
(`st_mtime` comparison with `<=`) and the per-channel scan collected no
missing/unsatisfied packages. -/
def lockfile_reqs_check (pipSat condaSat : String → String → Bool)
    (reqsMtime lockMtime : Nat) (channel_order : List String)
    (chanDict : String → List ReqPkg) (lock : List LockSpecData)
    (reqs_consistent lockfile_consistent : Bool) : Bool :=
  if lockfile_consistent && reqs_consistent then
    let mtimeOk := decide (reqsMtime ≤ lockMtime)
    let missing := (channel_order ++ ["pip"]).foldl
      (fun acc channel =>
        (chanDict channel).foldl
          (fun acc2 p =>
            if missingFor pipSat condaSat lock channel p then acc2 ++ [p]
            else acc2) acc)
      ([] : List ReqPkg)
    mtimeOk && missing.isEmpty
  else false

/-!
## Environment vs lockfile check
(`env_lockfile_check`, src/conda_ops/commands_env.py lines 319-490)

Python dicts of name to version are modelled as association lists with
unique keys built by insertion-or-overwrite; dict equality is key-set plus
value equality, as in CPython.
-/

def dictInsert (d : List (String × String)) (k v : String) :
    List (String × String) :=
  if d.any (fun p => p.1 == k) then
    d.map fun p => if p.1 == k then (k, v) else p
  else d ++ [(k, v)]

def buildDict (l : List (String × String)) : List (String × String) :=
  l.foldl (fun d kv => dictInsert d kv.1 kv.2) []

def dictLookup (d : List (String × String)) (k : String) : Option String :=
  (d.find? (fun p => p.1 == k)).map (·.2)

def dictEqB (a b : List (String × String)) : Bool :=
  (a.all fun p => dictLookup b p.1 == some p.2) &&
  (b.all fun p => dictLookup a p.1 == some p.2)

/-- One entry of `conda list --json` for the live environment. -/
structure EnvListPkg where
  name : String
  version : String
  channel : String
deriving DecidableEq

/-- The drift classification of the pip comparison (lines 448, 449 and
467): names only in the environment, names only in the lock file, and
names present in both whose versions differ. -/
def pip_drift_report (envD lockD : List (String × String)) :
    List String × List String × List String :=
  ((envD.map (·.1)).filter fun k => !(lockD.any fun p => p.1 == k),
   (lockD.map (·.1)).filter fun k => !(envD.any fun p => p.1 == k),
   (envD.filter fun p =>
      match dictLookup lockD p.1 with
      | some w => w != p.2
      | none => false).map (·.1))

/-- The environment's pip packages: entries of `conda list --json` whose
channel is `pypi` or `<develop>`, as a name-to-version dict. -/
def envPipDict (envCondaList : List EnvListPkg) : List (String × String) :=
  buildDict ((envCondaList.filter fun p =>
    p.channel == "pypi" || p.channel == "<develop>").map fun p =>
      (p.name, p.version))

/-- The lock file's pip packages (`package["manager"] == "pip"`) as a
name-to-version dict. -/
def lockPipDict (lockEntries : List LockSpecData) : List (String × String) :=
  buildDict ((lockEntries.filter fun p => p.manager == "pip").map fun p =>
    (p.name, p.version))

/-- `env_lockfile_check` with `die_on_error=False`.  Inputs: the stdout of
`conda list --explicit --md5` on the live environment, the parsed
`conda list --json` output, the parsed lock file, and the upstream
consistency flags.  `.error` is a fatal exception inside
`generate_explicit_lock_files`. -/
def env_lockfile_check (envExplicitOut : String)
    (envCondaList : List EnvListPkg) (lockEntries : List LockSpecData)
    (lockfile_consistent env_consistent : Bool) : Except Unit Bool :=
  if !lockfile_consistent then .ok false
  else if !env_consistent then .ok false
  else
    match render_explicit lockEntries with
    | .error e => .error e
    | .ok (condaStr, ph, pnh) =>
      let conda_set := ((pySplitLines envExplicitOut).filter
        fun x => strContains x "https").toFinset
      let lock_set := ((pySplitLines condaStr).filter
        fun x => strContains x "https").toFinset
      let check1 := decide (conda_set = lock_set)
      let conda_dict := envPipDict envCondaList
      let nfiles := 1 + (if ph.isSome then 1 else 0) +
        (if pnh.isSome then 1 else 0)
      if nfiles > 1 then
        .ok (check1 && dictEqB conda_dict (lockPipDict lockEntries))
      else if !conda_dict.isEmpty then .ok false
      else .ok check1

/-!
## Explicit-file generation over a file-system state
(`generate_explicit_lock_files`, src/conda_ops/commands_env.py
lines 609-642)
-/

inductive FileData
  | jsonFile (entries : List LockSpecData)
  | textFile (s : String)
deriving DecidableEq

/-- A file system: path to contents. -/
def FS : Type := String → Option FileData

def fsWrite (fs : FS) (path : String) (d : FileData) : FS :=
  fun x => if x = path then some d else fs x

/-- The configured paths the generator touches. -/
structure LockPaths where
  lockfile : String
  explicit_lockfile : String
  pip_explicit_lockfile : String
  nohash_explicit_lockfile : String

/-- `generate_explicit_lock_files`: load the json lock file, write the
conda explicit file, then for `hash_exists in [True, False]` write the pip
explicit file when its contents are non-empty; return the new file system
and the list of files written (`lockfiles`). -/
def generate_explicit_lock_files (paths : LockPaths) (fs : FS) :
    Except Unit (FS × List String) :=
  match fs paths.lockfile with
  | some (.jsonFile json_reqs) =>
    match render_explicit json_reqs with
    | .error e => .error e
    | .ok (condaStr, ph, pnh) =>
      let fs1 := fsWrite fs paths.explicit_lockfile (.textFile condaStr)
      let (fs2, files2) :=
        match ph with
        | some s => (fsWrite fs1 paths.pip_explicit_lockfile (.textFile s),
                     [paths.pip_explicit_lockfile])
        | none => (fs1, [])
      let (fs3, files3) :=
        match pnh with
        | some s => (fsWrite fs2 paths.nohash_explicit_lockfile (.textFile s),
                     [paths.nohash_explicit_lockfile])
        | none => (fs2, [])
      .ok (fs3, paths.explicit_lockfile :: files2 ++ files3)
  | _ => .error ()

/-!
## Claim-side specification predicates
-/

/-- The sub-list of lock entries rendered by `json_to_explicit` for a given
manager and hash flag. -/
def selectedEntries (reqs : List LockSpecData) (m : String) (b : Bool) :
    List LockSpecData :=
  reqs.filter fun p => p.manager == m && (hash_exists p == b)

/-- One rendered line per entry, concatenated. -/
def renderStr : List LockSpecData → String
  | [] => ""
  | p :: rest => (to_explicit p).getD "" ++ "\n" ++ renderStr rest

/-- What C5 literally claims `check_consistency` decides: manager/channel
agreement in both directions, and (for any entry) every stored field a
substring of any stored url. -/
def c5Claim (p : LockSpecData) : Bool :=
  ((!(p.manager == "pip") || (p.channel == some "pypi")) &&
   (!(p.channel == some "pypi") || (p.manager == "pip"))) &&
  (match p.url with
   | some u =>
     strContains u p.name && strContains u p.version &&
     (match p.channel with
      | some c => strContains u c
      | none => true)
   | none => true)

/-- The predicate `check_consistency` actually decides: the url-substring
requirement applies only to conda-managed entries with a truthy url (and
only to truthy fields), and the manager/channel agreement applies only when
a truthy channel is stored. -/
def check_consistency_spec (p : LockSpecData) : Prop :=
  (p.manager = "conda" → ∀ u, p.url = some u → u.isEmpty = false →
    (p.name.isEmpty = false → strContains u p.name = true) ∧
    (p.version.isEmpty = false → strContains u p.version = true) ∧
    (∀ c, p.channel = some c → c.isEmpty = false → strContains u c = true)) ∧
  (∀ c, p.channel = some c → c.isEmpty = false →
    (p.manager = "pip" → c = "pypi") ∧ ¬(p.manager = "conda" ∧ c = "pypi"))

/-- The channel qualifier of a dependency, when it has one. -/
def qualChannel : Dep → Option String
  | .str s =>
    match pySplitColons s with
    | c :: _ :: _ => some c
    | _ => none
  | .dict _ => none

/-- Multiplicity of a dependency among the channel-qualified entries of an
enumerated work list. -/
def countQ (l : List (Nat × Dep)) (d : Dep) : Nat :=
  ((l.map Prod.snd).filter isQualified).count d

/-- C3's claim-side satisfaction condition: the requirement's name appears
in the lock file and any stated version constraint is satisfied by the
recorded version under the owning manager's semantics. -/
def reqSatisfied (pipSat condaSat : String → String → Bool)
    (lock : List LockSpecData) (channel : String) (p : ReqPkg) : Prop :=
  ∃ lp ∈ lock, lp.name = p.name ∧
    ∀ c, p.constraint = some c →
      (if channel = "pip" then pipSat c lp.version = true
       else condaSat lp.version c = true)

/-- The conda explicit lines rendered from a lock file, as the set the
checker compares (lines of the generated explicit file containing
`https`). -/
def condaRenderSet (entries : List LockSpecData) : Finset String :=
  ((pySplitLines (explicitHeader ++ renderStr (selectedEntries entries "conda" true))).filter
    fun x => strContains x "https").toFinset

/-- The environment's explicit lines, as the set the checker compares. -/
def envExplicitSet (out : String) : Finset String :=
  ((pySplitLines out).filter fun x => strContains x "https").toFinset

/-!
## Concrete instances used by the claim theorems
-/

/-- Oracle for `MatchSpec` covering the concrete specs used below:
`numpy >=1.0` is valid but not canonical (canonical form `numpy>=1.0`). -/
def condaParse0 : String → Option (String × String) := fun s =>
  if s = "numpy >=1.0" then some ("numpy>=1.0", "numpy")
  else if s = "python" then some ("python", "python")
  else none

/-- Oracle for pip `Requirement` (no pip section in the instances). -/
def pipParse0 : String → Option (String × String) := fun _ => none

/-- A manifest whose nested pip mapping comes after a channel-qualified
dependency. -/
def c10Env : CondaEnvFile :=
  ⟨[.str "a::x", .dict (some ["p"]), .str "numpy"], true⟩

/-- A manifest whose qualified dependencies all name channels of the
order, with the nested pip mapping last. -/
def c7Env : CondaEnvFile :=
  ⟨[.str "a::x", .str "b::y", .dict (some ["p"])], true⟩

/-- A consistent pip lock entry whose name does not occur in its url. -/
def p5 : LockSpecData :=
  ⟨"foo", "1.0", "pip", some "pypi", some "https://example.com/archive.tar",
   none, none⟩

/-- A pip lock entry with a url but no sha256 hash. -/
def p6 : LockSpecData :=
  ⟨"pkg", "1.0", "pip", some "pypi", some "https://files/pkg-1.0.whl",
   none, none⟩

/-- A conda lock entry with full provenance. -/
def e1 : LockSpecData :=
  ⟨"numpy", "1.0", "conda", some "defaults",
   some "https://repo/defaults/numpy-1.0.tar", none, some "d41d8"⟩

/-- Two pipeline stages: the first succeeds with cumulative segment
`[e1]`, the second fails. -/
def c1Stages : List StageInput :=
  [⟨"ch0", ["numpy"], true, [e1]⟩, ⟨"ch1", ["scipy"], false, []⟩]

/-- A split requirements dictionary with one constraint-less conda
requirement. -/
def c3ChanDict : String → List ReqPkg := fun ch =>
  if ch = "defaults" then [⟨"numpy", false, "", none⟩] else []

/-- A lock file holding exactly that requirement. -/
def c3Lock : List LockSpecData :=
  [⟨"numpy", "1.0", "conda", some "defaults", some "https://u", none, none⟩]

/-- A version oracle that accepts everything. -/
def allSat : String → String → Bool := fun _ _ => true

/-- A conda lock entry with full provenance whose fields occur in its
url. -/
def c4Conda : LockSpecData :=
  ⟨"numpy", "1.0", "conda", some "defaults",
   some "https://repo/defaults/numpy-1.0.tar", none, some "abc"⟩

/-- A pip lock entry with full provenance. -/
def c4Pip : LockSpecData :=
  ⟨"requests", "2.0", "pip", some "pypi",
   some "https://pypi.io/requests-2.0.whl", some "ff", none⟩

/-- A two-entry lock file (one conda, one pip package). -/
def c4Entries : List LockSpecData := [c4Conda, c4Pip]

/-- The live environment's `conda list --explicit --md5` output matching
that lock file. -/
def c4EnvOut : String :=
  "# header junk\nhttps://repo/defaults/numpy-1.0.tar#abc\n"

/-- The paths used by the explicit-file generation witness. -/
def c8Paths : LockPaths := ⟨"lock.json", "explicit.txt", "pip.txt", "nohash.txt"⟩

/-- A file system holding an empty json lock file. -/
def c8Fs : FS := fun p => if p = "lock.json" then some (.jsonFile []) else none

/-!
## Helper lemmas
-/

lemma boolOrIff (a : Bool) (p : Prop) : (a = true ∨ p) ↔ (a = false → p) := by
  cases a <;> simp

lemma strAppendEmpty (s : String) : s ++ "" = s := by
  apply String.ext
  simp

lemma strEmptyAppend (s : String) : "" ++ s = s := by
  apply String.ext
  simp

/-- Rendering a pip entry only needs its url. -/
lemma to_explicit_pip_isSome (p : LockSpecData) (hm : p.manager = "pip")
    (hu : p.url.isSome) : (to_explicit p).isSome := by
  obtain ⟨u, hu⟩ := Option.isSome_iff_exists.mp hu
  simp [to_explicit, hm, hu]

/-- The loop of `json_to_explicit`, started in state `.ok s`, appends one
line per consistent, renderable entry matching the manager and hash flag. -/
lemma jte_aux (m : String) (b : Bool) :
    ∀ (reqs : List LockSpecData) (s : String),
      (∀ p ∈ reqs, check_consistency p = true) →
      (∀ p ∈ reqs, p.manager = m → hash_exists p = b → (to_explicit p).isSome) →
      reqs.foldl (jteStep m b) (Except.ok s) =
        .ok (s ++ renderStr (selectedEntries reqs m b)) := by
  intro reqs
  induction reqs with
  | nil => intro s _ _; simp [selectedEntries, renderStr, strAppendEmpty]
  | cons p rest ih =>
    intro s hcons hrend
    have hc : check_consistency p = true := hcons p (by simp)
    by_cases hpm : p.manager = m
    · by_cases hb : hash_exists p = b
      · obtain ⟨line, hline⟩ := Option.isSome_iff_exists.mp
          (hrend p (by simp) hpm hb)
        have : jteStep m b (Except.ok s) p = .ok (s ++ line ++ "\n") := by
          simp [jteStep, hc, hpm, hb, hline]
        rw [List.foldl_cons, this,
          ih (s ++ line ++ "\n") (fun q hq => hcons q (by simp [hq]))
            (fun q hq => hrend q (by simp [hq]))]
        have hsel : selectedEntries (p :: rest) m b =
            p :: selectedEntries rest m b := by
          simp [selectedEntries, hpm, hb]
        rw [hsel]
        simp [renderStr, hline, String.append_assoc]
      · have hb2 : (b == hash_exists p) = false := by
          simp [beq_eq_false_iff_ne]
          exact Ne.symm hb
        have : jteStep m b (Except.ok s) p = .ok s := by
          simp [jteStep, hc, hpm, hb2]
        rw [List.foldl_cons, this,
          ih s (fun q hq => hcons q (by simp [hq]))
            (fun q hq => hrend q (by simp [hq]))]
        have hsel : selectedEntries (p :: rest) m b =
            selectedEntries rest m b := by
          simp [selectedEntries, hpm, hb]
        rw [hsel]
    · have : jteStep m b (Except.ok s) p = .ok s := by
        simp [jteStep, hc, hpm]
      rw [List.foldl_cons, this,
        ih s (fun q hq => hcons q (by simp [hq]))
          (fun q hq => hrend q (by simp [hq]))]
      have hsel : selectedEntries (p :: rest) m b =
          selectedEntries rest m b := by
        simp [selectedEntries, hpm]
      rw [hsel]

/-- `json_to_explicit` on consistent, renderable input produces exactly the
concatenated lines of the selected entries. -/
lemma json_to_explicit_char (reqs : List LockSpecData) (m : String) (b : Bool)
    (hcons : ∀ p ∈ reqs, check_consistency p = true)
    (hrend : ∀ p ∈ reqs, p.manager = m → hash_exists p = b →
      (to_explicit p).isSome) :
    json_to_explicit reqs m b = .ok (renderStr (selectedEntries reqs m b)) := by
  have h := jte_aux m b reqs "" hcons hrend
  rw [json_to_explicit, h, strEmptyAppend]

/-- A run of `genLoop` over successful stages followed by a failing one
halts reporting the last successful stage's channel and leaves the merged
lock file untouched. -/
lemma genLoop_success_then_fail (init : List StageInput) :
    ∀ (lastS f : StageInput) (rest : List StageInput) (prev : Option String)
      (st : GenState),
      (∀ s ∈ init, conda_step_env_lock s ≠ none) →
      conda_step_env_lock lastS ≠ none →
      conda_step_env_lock f = none →
      (genLoop (init ++ lastS :: f :: rest) prev st).1 = .halted lastS.channel ∧
      (genLoop (init ++ lastS :: f :: rest) prev st).2.mergedLock =
        st.mergedLock := by
  induction init with
  | nil =>
    intro lastS f rest prev st _ hl hf
    obtain ⟨seg, hseg⟩ := Option.ne_none_iff_exists'.mp hl
    refine ⟨?_, ?_⟩ <;> simp [genLoop, hseg, hf]
  | cons s ss ih =>
    intro lastS f rest prev st hinit hl hf
    obtain ⟨seg, hseg⟩ := Option.ne_none_iff_exists'.mp (hinit s (by simp))
    have step : genLoop ((s :: ss) ++ lastS :: f :: rest) prev st =
        genLoop (ss ++ lastS :: f :: rest) (some s.channel)
          { st with stageFiles :=
              if s.pkgs.isEmpty then st.stageFiles
              else writeStage st.stageFiles s.channel seg } := by
      simp [genLoop, hseg]
    rw [step]
    exact ih lastS f rest (some s.channel) _
      (fun x hx => hinit x (by simp [hx])) hl hf

/-!
## Claim theorems
-/

/-- C1, counterexample to the claim as stated: with the merged lock file
initially empty, stage 0 succeeding with cumulative segment `[e1]` and
stage 1 failing, `lockfile_generate` halts reporting `ch0` but the merged
lock file still holds its old contents (`some []`), not stage 0's segment
`[e1]` (which only exists in the intermediate stage file): the `sys.exit(1)`
on the failure path runs before the `shutil.copy` merge. -/
theorem c1_counterexample :
    (lockfile_generate c1Stages (some [])).1 = .halted "ch0" ∧
    (lockfile_generate c1Stages (some [])).2.mergedLock = some [] ∧
    (lockfile_generate c1Stages (some [])).2.stageFiles "ch0" = some [e1] ∧
    some ([] : List LockSpecData) ≠ some [e1] :=
  ⟨rfl, rfl, rfl, by decide⟩

/-- C1 (amended): if stage `i` fails after at least one successful stage,
`lockfile_generate` halts reporting the channel of stage `i-1` and the
merged lock file is left exactly as it was before the run (in particular it
contains none of stage `i`'s installs); if the first stage fails the run is
fatal and the state is completely untouched. -/
theorem c1_staged_failure_behavior :
    (∀ (init : List StageInput) (lastS f : StageInput) (rest : List StageInput)
        (lock0 : Option (List LockSpecData)),
      (∀ s ∈ init, conda_step_env_lock s ≠ none) →
      conda_step_env_lock lastS ≠ none →
      conda_step_env_lock f = none →
      (lockfile_generate (init ++ lastS :: f :: rest) lock0).1 =
        .halted lastS.channel ∧
      (lockfile_generate (init ++ lastS :: f :: rest) lock0).2.mergedLock =
        lock0) ∧
    (∀ (f : StageInput) (rest : List StageInput)
        (lock0 : Option (List LockSpecData)),
      conda_step_env_lock f = none →
      lockfile_generate (f :: rest) lock0 = (.fatal, ⟨lock0, fun _ => none⟩)) := by
  constructor
  · intro init lastS f rest lock0 h1 h2 h3
    exact genLoop_success_then_fail init lastS f rest none
      ⟨lock0, fun _ => none⟩ h1 h2 h3
  · intro f rest lock0 hf
    simp [lockfile_generate, genLoop, hf]

/-- Witness for C1 at the concrete two-stage run. -/
theorem c1_witness :
    (lockfile_generate c1Stages (some [])).1 = .halted "ch0" ∧
    (lockfile_generate c1Stages (some [])).2.mergedLock = some [] := by
  have h := c1_staged_failure_behavior.1 [] ⟨"ch0", ["numpy"], true, [e1]⟩
    ⟨"ch1", ["scipy"], false, []⟩ [] (some [])
    (by intro s hs; cases hs) (by decide) (by decide)
  exact h

/-- C2: a channel whose split package list is empty is treated as a
success: `conda_step_env_lock` returns the empty collection (not the
failure value `None`), and the `lockfile_generate` loop proceeds past the
channel recording it as the last good channel, with the on-disk state
untouched. -/
theorem c2_empty_channel_is_success (si : StageInput) (rest : List StageInput)
    (prev : Option String) (st : GenState) (h : si.pkgs = []) :
    conda_step_env_lock si = some [] ∧
    genLoop (si :: rest) prev st = genLoop rest (some si.channel) st := by
  constructor
  · simp [conda_step_env_lock, h]
  · simp [genLoop, conda_step_env_lock, h]

/-- Witness for C2 at a concrete empty channel. -/
theorem c2_witness :
    conda_step_env_lock ⟨"conda-forge", [], true, []⟩ = some [] ∧
    genLoop [⟨"conda-forge", [], true, []⟩] none ⟨none, fun _ => none⟩ =
      genLoop [] (some "conda-forge") ⟨none, fun _ => none⟩ :=
  c2_empty_channel_is_success ⟨"conda-forge", [], true, []⟩ [] none
    ⟨none, fun _ => none⟩ rfl

/-- C5, counterexample to the claim as stated: `p5` is a pip entry whose
stored name `foo` (and version) do not occur in its stored url, yet
`check_consistency` returns `True` because the url-substring check is only
performed for conda-managed entries. -/
theorem c5_counterexample :
    check_consistency p5 = true ∧ c5Claim p5 = false := by decide

/-- C5 (amended): `check_consistency` returns `True` iff (a) whenever a
truthy channel is stored, manager `pip` forces channel `pypi` and manager
`conda` forbids channel `pypi`, and (b) for conda-managed entries with a
truthy url, every truthy stored field among name, version and channel is a
substring of the url. -/
theorem c5_check_consistency_characterization (p : LockSpecData) :
    check_consistency p = true ↔ check_consistency_spec p := by
  obtain ⟨n, v, m, ch, u, sh, md⟩ := p
  simp only [check_consistency, check_consistency_spec]
  cases u <;> cases ch <;>
    by_cases hm : m = "conda" <;>
      simp_all [beq_iff_eq, boolOrIff] <;> try tauto

/-- C6, counterexample to the claim as stated: `p6` is a pip lock entry
whose sha256 hash is absent, yet `to_explicit` does not fail: it renders a
line with the literal text `None` in the hash field (Python's f-string
formatting of `None`), so a missing hash alone does not produce a
missing-provenance error. -/
theorem c6_counterexample :
    to_explicit p6 =
      some "pkg @ https://files/pkg-1.0.whl --hash=sha256:None" := rfl

/-- C6 (amended): rendering fails with an error (yielding no line) when the
url is absent, and for a conda entry when the md5 hash is absent; on a
consistent lock file whose entries carry urls, the pip explicit file for
each hash flag consists of exactly the lines of the pip entries with that
flag; in particular a pip entry without a sha256 hash is excluded from the
hash-based file and retained in the no-hash file. -/
theorem c6_provenance_routing :
    (∀ p : LockSpecData, p.url = none → to_explicit p = none) ∧
    (∀ p : LockSpecData, p.manager = "conda" → p.md5 = none →
      to_explicit p = none) ∧
    (∀ (reqs : List LockSpecData) (b : Bool),
      (∀ p ∈ reqs, check_consistency p = true) →
      (∀ p ∈ reqs, p.url.isSome) →
      json_to_explicit reqs "pip" b =
        .ok (renderStr (selectedEntries reqs "pip" b))) ∧
    (∀ (reqs : List LockSpecData) (p : LockSpecData), p ∈ reqs →
      p.manager = "pip" → p.sha256 = none →
      p ∉ selectedEntries reqs "pip" true ∧
      p ∈ selectedEntries reqs "pip" false) := by
  refine ⟨?_, ?_, ?_, ?_⟩
  · intro p hu
    simp [to_explicit, hu]
  · intro p hm hmd
    simp [to_explicit, hm, hmd]
  · intro reqs b hcons hurl
    refine json_to_explicit_char reqs "pip" b hcons ?_
    intro p hp hpm _
    exact to_explicit_pip_isSome p hpm (hurl p hp)
  · intro reqs p hp hpm hsha
    constructor
    · simp [selectedEntries, hash_exists, hpm, hsha]
    · simp [selectedEntries, List.mem_filter, hash_exists, hpm, hsha, hp]

/-- Witness for C6: a url-less conda entry fails to render; on the
single-entry lock file `[p6]` the no-hash pip file holds exactly `p6`'s
line and `p6` is excluded from the hash-based pip file. -/
theorem c6_witness :
    to_explicit ⟨"x", "1", "conda", none, none, none, none⟩ = none ∧
    json_to_explicit [p6] "pip" false = .ok (renderStr [p6]) ∧
    p6 ∉ selectedEntries [p6] "pip" true ∧
    p6 ∈ selectedEntries [p6] "pip" false := by
  refine ⟨c6_provenance_routing.1 _ rfl, ?_, ?_, ?_⟩
  · have h := c6_provenance_routing.2.2.1 [p6] false
      (by intro p hp; simp at hp; subst hp; decide)
      (by intro p hp; simp at hp; subst hp; decide)
    have hsel : selectedEntries [p6] "pip" false = [p6] := by decide
    rw [h, hsel]
  · exact (c6_provenance_routing.2.2.2 [p6] p6 (by simp) rfl rfl).1
  · exact (c6_provenance_routing.2.2.2 [p6] p6 (by simp) rfl rfl).2

/-- C9 (code bug): the canonicalization rewrite is triggered exactly as the
claim says (all specs valid, no duplicates, some spec non-canonical), but
the source opens the requirements file in read mode at the rewrite site
(`with open(requirements_file, "r")`), so `yaml.dump` raises
`io.UnsupportedOperation` and the file is left unchanged instead of being
rewritten.  The three evaluations: already-canonical input passes and is
untouched, invalid input fails and is untouched, valid non-canonical input
crashes with the file untouched. -/
theorem c9_reqs_check_rewrite_crashes :
    reqs_check condaParse0 pipParse0 (some [.spec "python"]) =
      (.ok true, some [.spec "python"]) ∧
    reqs_check condaParse0 pipParse0 (some [.spec "!!!"]) =
      (.ok false, some [.spec "!!!"]) ∧
    reqs_check condaParse0 pipParse0 (some [.spec "numpy >=1.0"]) =
      (.error (), some [.spec "numpy >=1.0"]) :=
  ⟨rfl, rfl, rfl⟩

/-- C10 (code bug): on a manifest whose nested pip mapping follows a
channel-qualified dependency, `env_split` pops the wrong element: the
result stores the plain dependency `numpy` under the `pip` key, leaves the
pip mapping itself in the `defaults` remainder, and `numpy` is dropped from
every channel list — not the claimed partition. -/
theorem c10_env_split_misassigns_pip :
    ∃ r, env_split c10Env ["defaults", "a", "pip"] = .ok r ∧
      r.pipVal = some (.str "numpy") ∧
      r.defaults = [.dict (some ["p"])] ∧
      r.chans "a" = ["x"] ∧ r.chans "defaults" = [] :=
  ⟨_, rfl, rfl, rfl, rfl, rfl⟩

lemma foldl_filter_append (pred : ReqPkg → Bool) :
    ∀ (l acc : List ReqPkg),
      l.foldl (fun a p => if pred p then a ++ [p] else a) acc =
        acc ++ l.filter pred := by
  intro l
  induction l with
  | nil => intro acc; simp
  | cons p rest ih =>
    intro acc
    by_cases hp : pred p <;>
      simp [List.foldl_cons, hp, ih, List.filter_cons]

lemma channels_fold (chanDict : String → List ReqPkg)
    (pred : String → ReqPkg → Bool) :
    ∀ (chs : List String) (acc : List ReqPkg),
      chs.foldl (fun a ch => (chanDict ch).foldl
        (fun a2 p => if pred ch p then a2 ++ [p] else a2) a) acc =
      acc ++ chs.flatMap (fun ch => (chanDict ch).filter (pred ch)) := by
  intro chs
  induction chs with
  | nil => intro acc; simp
  | cons ch rest ih =>
    intro acc
    rw [List.foldl_cons, foldl_filter_append, ih]
    simp

lemma bind_nil_iff {α β : Type} (l : List α) (f : α → List β) :
    l.flatMap f = [] ↔ ∀ x ∈ l, f x = [] := by
  induction l with
  | nil => simp
  | cons x rest ih => simp [List.append_eq_nil, ih]

lemma filter_nil_iff {α : Type} (l : List α) (p : α → Bool) :
    l.filter p = [] ↔ ∀ a ∈ l, p a = false := by
  induction l with
  | nil => simp
  | cons x rest ih =>
    by_cases hx : p x <;> simp [List.filter_cons, hx, ih]

/-- One requirement contributes nothing to `missing_packages` exactly when
some lock entry carries its name and satisfies its stated constraint. -/
lemma missingFor_false_iff (pipSat condaSat : String → String → Bool)
    (lock : List LockSpecData) (ch : String) (p : ReqPkg)
    (hEmpty : ∀ v, pipSat "" v = true)
    (hnd : (lock.map LockSpecData.name).Nodup)
    (hpath : p.isPath = false) :
    missingFor pipSat condaSat lock ch p = false ↔
      reqSatisfied pipSat condaSat lock ch p := by
  unfold missingFor reqSatisfied
  rw [hpath]
  simp only [Bool.false_eq_true, if_false]
  cases hfind : lock.find? (fun lp => lp.name == p.name) with
  | none =>
    simp only [reduceCtorEq, false_iff]
    push_neg
    intro lp hlp hname
    have := List.find?_eq_none.mp hfind lp hlp
    simp [hname] at this
  | some lp0 =>
    have hmem := List.mem_of_find?_eq_some hfind
    have hname0 : lp0.name = p.name := by
      have := List.find?_some hfind
      simpa using this
    have huniq : ∀ lp ∈ lock, lp.name = p.name → lp = lp0 := by
      intro lp hlp hn
      exact List.inj_on_of_nodup_map hnd hlp hmem (by rw [hn, hname0])
    constructor
    · intro h
      refine ⟨lp0, hmem, hname0, ?_⟩
      intro c hc
      by_cases hch : ch = "pip"
      · have hch2 : (ch == "pip") = true := by simp [hch]
        rw [if_pos hch]
        simp only [hch2, if_true] at h
        rw [hc] at h
        simpa using h
      · have hch2 : (ch == "pip") = false := by simp [hch]
        rw [if_neg hch]
        simp only [hch2, Bool.false_eq_true, if_false, hc] at h
        simpa using h
    · rintro ⟨lp, hlp, hname, hsat⟩
      have hlp0 : lp = lp0 := huniq lp hlp hname
      subst hlp0
      by_cases hch : ch = "pip"
      · have hch2 : (ch == "pip") = true := by simp [hch]
        simp only [hch2, if_true]
        cases hc : p.constraint with
        | none => simp [hEmpty]
        | some c =>
          have := hsat c hc
          rw [if_pos hch] at this
          simpa [hc] using this
      · have hch2 : (ch == "pip") = false := by simp [hch]
        simp only [hch2, Bool.false_eq_true, if_false]
        cases hc : p.constraint with
        | none => simp
        | some c =>
          have := hsat c hc
          rw [if_neg hch] at this
          simpa using this

/-- C3, counterexample to the claim as stated: with the requirements file
and the lock file having the *same* modification time, and the single
requirement present in the lock file, `lockfile_reqs_check` returns `True`
although the lock file is not newer than the requirements file (the source
compares with `<=`, not `<`). -/
theorem c3_counterexample :
    lockfile_reqs_check allSat allSat 5 5 ["defaults"] c3ChanDict c3Lock
      true true = true ∧ ¬(5 < 5) := ⟨by decide, by decide⟩

/-- C3 (amended): for requirement and lock files that pass their own
checks, `lockfile_reqs_check` returns `True` iff the requirements file is
*not newer* than the lock file (equal modification times pass) and every
requirement of every channel (pip included) appears by name in the lock
file with its stated version constraint satisfied by the recorded version
under the owning manager's semantics. -/
theorem c3_lockfile_reqs_check_characterization
    (pipSat condaSat : String → String → Bool) (reqsMtime lockMtime : Nat)
    (channel_order : List String) (chanDict : String → List ReqPkg)
    (lock : List LockSpecData)
    (hEmpty : ∀ v, pipSat "" v = true)
    (hnd : (lock.map LockSpecData.name).Nodup)
    (hpath : ∀ ch ∈ channel_order ++ ["pip"], ∀ p ∈ chanDict ch,
      p.isPath = false) :
    lockfile_reqs_check pipSat condaSat reqsMtime lockMtime channel_order
        chanDict lock true true = true ↔
      (reqsMtime ≤ lockMtime ∧
        ∀ ch ∈ channel_order ++ ["pip"], ∀ p ∈ chanDict ch,
          reqSatisfied pipSat condaSat lock ch p) := by
  unfold lockfile_reqs_check
  rw [channels_fold chanDict
    (fun ch p => missingFor pipSat condaSat lock ch p)]
  simp only [Bool.and_self, if_true, List.nil_append, Bool.and_eq_true,
    decide_eq_true_eq, List.isEmpty_iff]
  rw [bind_nil_iff]
  constructor
  · rintro ⟨hmt, hall⟩
    refine ⟨hmt, ?_⟩
    intro ch hch p hp
    have := (filter_nil_iff _ _).mp (hall ch hch) p hp
    exact (missingFor_false_iff pipSat condaSat lock ch p hEmpty hnd
      (hpath ch hch p hp)).mp this
  · rintro ⟨hmt, hall⟩
    refine ⟨hmt, ?_⟩
    intro ch hch
    refine (filter_nil_iff _ _).mpr ?_
    intro p hp
    exact (missingFor_false_iff pipSat condaSat lock ch p hEmpty hnd
      (hpath ch hch p hp)).mpr (hall ch hch p hp)

/-- Witness for C3 at the concrete instance (equal mtimes, requirement
found in the lock file). -/
theorem c3_witness :
    lockfile_reqs_check allSat allSat 5 5 ["defaults"] c3ChanDict c3Lock
      true true = true := by
  refine (c3_lockfile_reqs_check_characterization allSat allSat 5 5
    ["defaults"] c3ChanDict c3Lock (fun _ => rfl) (by decide) ?_).mpr
    ⟨by omega, ?_⟩
  · intro ch _ p hp
    revert hp
    unfold c3ChanDict
    split <;> intro hp
    · simp at hp
      rw [hp]
    · simp at hp
  · intro ch hch p hp
    revert hp
    unfold c3ChanDict
    split <;> intro hp
    · simp at hp
      subst hp
      refine ⟨⟨"numpy", "1.0", "conda", some "defaults", some "https://u",
        none, none⟩, by simp [c3Lock], rfl, ?_⟩
      intro c hc
      cases hc
    · simp at hp

lemma fsWrite_ne (fs : FS) (p q : String) (d : FileData) (h : q ≠ p) :
    fsWrite fs p d q = fs q := by
  simp [fsWrite, h]

/-- C8: regenerating the explicit lock files from an unchanged lock file is
idempotent: a second run on the file system produced by a successful first
run reads the same lock file contents (none of the written paths is the
lock file), renders the same strings, and rewrites the same bytes, so the
file system and the list of written files are byte-identical. -/
theorem c8_generate_idempotent (paths : LockPaths) (fs fs1 : FS)
    (files : List String)
    (h1 : paths.lockfile ≠ paths.explicit_lockfile)
    (h2 : paths.lockfile ≠ paths.pip_explicit_lockfile)
    (h3 : paths.lockfile ≠ paths.nohash_explicit_lockfile)
    (hrun : generate_explicit_lock_files paths fs = .ok (fs1, files)) :
    generate_explicit_lock_files paths fs1 = .ok (fs1, files) := by
  unfold generate_explicit_lock_files at hrun ⊢
  cases hfs : fs paths.lockfile with
  | none => rw [hfs] at hrun; simp at hrun
  | some fd =>
    cases fd with
    | textFile s => rw [hfs] at hrun; simp at hrun
    | jsonFile reqs =>
      rw [hfs] at hrun
      dsimp only at hrun
      cases hr : render_explicit reqs with
      | error e => rw [hr] at hrun; simp at hrun
      | ok trip =>
        obtain ⟨c, ph, pnh⟩ := trip
        rw [hr] at hrun
        dsimp only at hrun
        cases ph with
        | none =>
          cases pnh with
          | none =>
            dsimp only at hrun
            simp only [Except.ok.injEq, Prod.mk.injEq] at hrun
            obtain ⟨hfs1, hfiles⟩ := hrun
            subst hfs1; subst hfiles
            rw [fsWrite_ne _ _ _ _ h1, hfs]
            dsimp only
            rw [hr]
            dsimp only
            refine congrArg Except.ok (congrArg (fun g => (g, _)) ?_)
            funext x
            simp only [fsWrite]
            split_ifs <;> rfl
          | some t =>
            dsimp only at hrun
            simp only [Except.ok.injEq, Prod.mk.injEq] at hrun
            obtain ⟨hfs1, hfiles⟩ := hrun
            subst hfs1; subst hfiles
            rw [fsWrite_ne _ _ _ _ h3, fsWrite_ne _ _ _ _ h1, hfs]
            dsimp only
            rw [hr]
            dsimp only
            refine congrArg Except.ok (congrArg (fun g => (g, _)) ?_)
            funext x
            simp only [fsWrite]
            split_ifs <;> rfl
        | some s =>
          cases pnh with
          | none =>
            dsimp only at hrun
            simp only [Except.ok.injEq, Prod.mk.injEq] at hrun
            obtain ⟨hfs1, hfiles⟩ := hrun
            subst hfs1; subst hfiles
            rw [fsWrite_ne _ _ _ _ h2, fsWrite_ne _ _ _ _ h1, hfs]
            dsimp only
            rw [hr]
            dsimp only
            refine congrArg Except.ok (congrArg (fun g => (g, _)) ?_)
            funext x
            simp only [fsWrite]
            split_ifs <;> rfl
          | some t =>
            dsimp only at hrun
            simp only [Except.ok.injEq, Prod.mk.injEq] at hrun
            obtain ⟨hfs1, hfiles⟩ := hrun
            subst hfs1; subst hfiles
            rw [fsWrite_ne _ _ _ _ h3, fsWrite_ne _ _ _ _ h2,
              fsWrite_ne _ _ _ _ h1, hfs]
            dsimp only
            rw [hr]
            dsimp only
            refine congrArg Except.ok (congrArg (fun g => (g, _)) ?_)
            funext x
            simp only [fsWrite]
            split_ifs <;> rfl

/-- Witness for C8 at a concrete lock file: the second run reproduces the
first run's file system and file list exactly. -/
theorem c8_witness :
    generate_explicit_lock_files c8Paths
        (fsWrite c8Fs "explicit.txt" (.textFile (explicitHeader ++ ""))) =
      .ok (fsWrite c8Fs "explicit.txt" (.textFile (explicitHeader ++ "")),
        ["explicit.txt"]) :=
  c8_generate_idempotent c8Paths c8Fs _ _ (by decide) (by decide) (by decide)
    rfl

lemma pyEnumFrom_append (l₁ l₂ : List Dep) :
    ∀ n, pyEnumFrom n (l₁ ++ l₂) =
      pyEnumFrom n l₁ ++ pyEnumFrom (n + l₁.length) l₂ := by
  induction l₁ with
  | nil => intro n; simp [pyEnumFrom]
  | cons d rest ih =>
    intro n
    have h2 : n + 1 + rest.length = n + (rest.length + 1) := by omega
    simp only [List.cons_append, pyEnumFrom, List.length_cons, List.append_eq]
    rw [ih (n + 1), h2]

lemma mem_pyEnumFrom (l : List Dep) :
    ∀ (n : Nat) (kd : Nat × Dep), kd ∈ pyEnumFrom n l → kd.2 ∈ l := by
  induction l with
  | nil => intro n kd h; cases h
  | cons d rest ih =>
    intro n kd h
    rcases List.mem_cons.mp h with rfl | h2
    · simp
    · exact List.mem_cons_of_mem _ (ih (n + 1) kd h2)

lemma map_snd_pyEnumFrom (l : List Dep) :
    ∀ n, (pyEnumFrom n l).map Prod.snd = l := by
  induction l with
  | nil => intro n; rfl
  | cons d rest ih => intro n; simp [pyEnumFrom, ih (n + 1)]

lemma countQ_pyEnumFrom (m : Nat) (l : List Dep) (d : Dep) :
    countQ (pyEnumFrom m l) d = (l.filter isQualified).count d := by
  unfold countQ
  rw [map_snd_pyEnumFrom]

lemma popAt_append (u : List Dep) (d : Dep) (w : List Dep) :
    popAt (u ++ d :: w) u.length = some (d, u ++ w) := by
  induction u with
  | nil => rfl
  | cons x xs ih => simp [popAt, ih]

lemma isQualified_of_split (s : String) (c p1 : String) (t : List String)
    (h : pySplitColons s = c :: p1 :: t) : isQualified (.str s) = true := by
  simp [isQualified, h]

lemma qualChannel_str_elim (s : String) (c : String)
    (h : qualChannel (.str s) = some c) :
    ∃ p1 t, pySplitColons s = c :: p1 :: t := by
  have h2 : (match pySplitColons s with
    | c0 :: _ :: _ => some c0
    | _ => none) = some c := h
  rcases hps : pySplitColons s with _ | ⟨c0, _ | ⟨p1, t⟩⟩ <;> rw [hps] at h2
  · simp at h2
  · simp at h2
  · refine ⟨p1, t, ?_⟩
    simp only [Option.some.injEq] at h2
    rw [h2]

/-- Loop elements that are neither a truthy pip mapping nor
channel-qualified leave the whole state untouched. -/
lemma envSplitLoop_skip (order : List String) :
    ∀ (pre rest : List (Nat × Dep)) (dl : List Dep)
      (chans : String → List String) (pv : Option Dep),
      (∀ kd ∈ pre, pipTruthy kd.2 = false ∧ isQualified kd.2 = false) →
      envSplitLoop order (pre ++ rest) dl chans pv =
        envSplitLoop order rest dl chans pv := by
  intro pre
  induction pre with
  | nil => intro rest dl chans pv _; rfl
  | cons kd pre2 ih =>
    intro rest dl chans pv hpre
    obtain ⟨k, d⟩ := kd
    obtain ⟨hpt, hq⟩ := hpre (k, d) (by simp)
    cases d with
    | dict p =>
      have : envSplitLoop order (((k, Dep.dict p) :: pre2) ++ rest) dl chans pv
          = envSplitLoop order (pre2 ++ rest) dl chans pv := by
        simp only [List.cons_append, envSplitLoop, hpt, Bool.false_eq_true,
          if_false, List.append_eq]
      rw [this]
      exact ih rest dl chans pv (fun x hx => hpre x (by simp [hx]))
    | str s =>
      rcases hps : pySplitColons s with _ | ⟨c0, _ | ⟨p1, t⟩⟩
      · have : envSplitLoop order (((k, Dep.str s) :: pre2) ++ rest) dl chans pv
            = envSplitLoop order (pre2 ++ rest) dl chans pv := by
          simp only [List.cons_append, envSplitLoop, hps, List.append_eq]
        rw [this]
        exact ih rest dl chans pv (fun x hx => hpre x (by simp [hx]))
      · have : envSplitLoop order (((k, Dep.str s) :: pre2) ++ rest) dl chans pv
            = envSplitLoop order (pre2 ++ rest) dl chans pv := by
          simp only [List.cons_append, envSplitLoop, hps, List.append_eq]
        rw [this]
        exact ih rest dl chans pv (fun x hx => hpre x (by simp [hx]))
      · exfalso
        have := isQualified_of_split s c0 p1 t hps
        rw [this] at hq
        cases hq

lemma countQ_cons_unqual (k : Nat) (d : Dep) (rest : List (Nat × Dep))
    (x : Dep) (h : isQualified d = false) :
    countQ ((k, d) :: rest) x = countQ rest x := by
  unfold countQ
  simp [List.filter_cons, h]

lemma countQ_cons_qual_self (k : Nat) (d : Dep) (rest : List (Nat × Dep))
    (h : isQualified d = true) :
    countQ ((k, d) :: rest) d = countQ rest d + 1 := by
  unfold countQ
  simp [List.filter_cons, h, List.count_cons]

lemma countQ_cons_qual_ne (k : Nat) (d : Dep) (rest : List (Nat × Dep))
    (x : Dep) (h : isQualified d = true) (hne : x ≠ d) :
    countQ ((k, d) :: rest) x = countQ rest x := by
  unfold countQ
  simp [List.filter_cons, h, List.count_cons, hne]

lemma filter_le_one_decomp {α : Type} (p : α → Bool) :
    ∀ (l : List α), (l.filter p).length ≤ 1 →
      (∀ x ∈ l, p x = false) ∨
      ∃ u d0 w, l = u ++ d0 :: w ∧ p d0 = true ∧
        (∀ x ∈ u, p x = false) ∧ (∀ x ∈ w, p x = false) := by
  intro l
  induction l with
  | nil => intro _; left; simp
  | cons x rest ih =>
    intro hlen
    by_cases hx : p x
    · right
      refine ⟨[], x, rest, by simp, hx, by simp, ?_⟩
      have hlen2 : (rest.filter p).length = 0 := by
        rw [List.filter_cons, if_pos hx] at hlen
        simp only [List.length_cons] at hlen
        omega
      have hnil : rest.filter p = [] := List.length_eq_zero.mp hlen2
      exact (filter_nil_iff rest p).mp hnil
    · have hx2 : p x = false := by simpa using hx
      have hlen2 : (rest.filter p).length ≤ 1 := by
        rw [List.filter_cons, if_neg (by simp [hx2])] at hlen
        exact hlen
      rcases ih hlen2 with hall | ⟨u, d0, w, heq, hd0, hu, hw⟩
      · left
        intro y hy
        rcases List.mem_cons.mp hy with rfl | hy2
        · exact hx2
        · exact hall y hy2
      · right
        refine ⟨x :: u, d0, w, by simp [heq], hd0, ?_, hw⟩
        intro y hy
        rcases List.mem_cons.mp hy with rfl | hy2
        · exact hx2
        · exact hu y hy2

/-- After the pip mapping has been popped, a work list without further
truthy pip mappings whose qualified channels are all in the order completes
successfully, provided the live list carries enough copies of each
qualified dependency (which the enumeration of a copy guarantees). -/
lemma envSplitLoop_ok (order : List String) :
    ∀ (todo : List (Nat × Dep)) (dl : List Dep)
      (chans : String → List String) (pv : Option Dep),
      (∀ kd ∈ todo, pipTruthy kd.2 = false) →
      (∀ kd ∈ todo, ∀ c, qualChannel kd.2 = some c → c ∈ order) →
      (∀ d, countQ todo d ≤ dl.count d) →
      ∃ res, envSplitLoop order todo dl chans pv = .ok res := by
  intro todo
  induction todo with
  | nil => intro dl chans pv _ _ _; exact ⟨(dl, chans, pv), rfl⟩
  | cons kd rest ih =>
    intro dl chans pv hpt hch hcount
    obtain ⟨k, d⟩ := kd
    cases d with
    | dict p =>
      have hp : pipTruthy (Dep.dict p) = false := hpt (k, .dict p) (by simp)
      have step : envSplitLoop order ((k, Dep.dict p) :: rest) dl chans pv =
          envSplitLoop order rest dl chans pv := by
        simp only [envSplitLoop, hp, Bool.false_eq_true, if_false]
      rw [step]
      refine ih dl chans pv (fun x hx => hpt x (by simp [hx]))
        (fun x hx => hch x (by simp [hx])) ?_
      intro d
      have := hcount d
      rwa [countQ_cons_unqual _ _ _ _ (by rfl)] at this
    | str s =>
      rcases hps : pySplitColons s with _ | ⟨c0, _ | ⟨p1, t⟩⟩
      · have step : envSplitLoop order ((k, Dep.str s) :: rest) dl chans pv =
            envSplitLoop order rest dl chans pv := by
          simp only [envSplitLoop, hps]
        rw [step]
        refine ih dl chans pv (fun x hx => hpt x (by simp [hx]))
          (fun x hx => hch x (by simp [hx])) ?_
        intro d
        have := hcount d
        rwa [countQ_cons_unqual _ _ _ _ (by simp [isQualified, hps])] at this
      · have step : envSplitLoop order ((k, Dep.str s) :: rest) dl chans pv =
            envSplitLoop order rest dl chans pv := by
          simp only [envSplitLoop, hps]
        rw [step]
        refine ih dl chans pv (fun x hx => hpt x (by simp [hx]))
          (fun x hx => hch x (by simp [hx])) ?_
        intro d
        have := hcount d
        rwa [countQ_cons_unqual _ _ _ _ (by simp [isQualified, hps])] at this
      · have hqual : isQualified (Dep.str s) = true :=
          isQualified_of_split s c0 p1 t hps
        have hc0 : c0 ∈ order := by
          refine hch (k, .str s) (by simp) c0 ?_
          show qualChannel (.str s) = some c0
          have : qualChannel (.str s) = (match pySplitColons s with
            | c :: _ :: _ => some c
            | _ => none) := rfl
          rw [this, hps]
        have hmem : Dep.str s ∈ dl := by
          have h1 := hcount (Dep.str s)
          rw [countQ_cons_qual_self _ _ _ hqual] at h1
          exact List.count_pos_iff.mp (by omega)
        have hrm : removeFirst dl (Dep.str s) =
            some (dl.erase (Dep.str s)) := by
          simp [removeFirst, hmem]
        have step : envSplitLoop order ((k, Dep.str s) :: rest) dl chans pv =
            envSplitLoop order rest (dl.erase (Dep.str s))
              (updateChan chans c0 (chans c0 ++ [p1])) pv := by
          simp only [envSplitLoop, hps, hc0, if_true, hrm]
        rw [step]
        refine ih (dl.erase (Dep.str s)) _ pv
          (fun x hx => hpt x (by simp [hx]))
          (fun x hx => hch x (by simp [hx])) ?_
        intro d
        by_cases hd : d = Dep.str s
        · subst hd
          have h1 := hcount (Dep.str s)
          rw [countQ_cons_qual_self _ _ _ hqual] at h1
          rw [List.count_erase_self]
          omega
        · have h1 := hcount d
          rw [countQ_cons_qual_ne _ _ _ _ hqual hd] at h1
          rw [List.count_erase_of_ne hd]
          exact h1

/-- If the first channel-qualified dependency whose channel is missing from
the order sits behind only well-channelled, non-pip work items, the loop
raises exactly the channel-missing error naming that channel and
dependency. -/
lemma envSplitLoop_first_offender (order : List String) :
    ∀ (ta : List (Nat × Dep)) (k : Nat) (s : String) (tb : List (Nat × Dep))
      (dl : List Dep) (chans : String → List String) (pv : Option Dep)
      (c p1 : String) (t : List String),
      (∀ kd ∈ ta, pipTruthy kd.2 = false) →
      (∀ kd ∈ ta, ∀ c', qualChannel kd.2 = some c' → c' ∈ order) →
      (∀ d, countQ ta d ≤ dl.count d) →
      pySplitColons s = c :: p1 :: t →
      c ∉ order →
      envSplitLoop order (ta ++ (k, .str s) :: tb) dl chans pv =
        .error (.channelMissing c s) := by
  intro ta
  induction ta with
  | nil =>
    intro k s tb dl chans pv c p1 t _ _ _ hps hc
    simp only [List.nil_append, envSplitLoop, hps, hc, if_false]
  | cons kd rest ih =>
    intro k s tb dl chans pv c p1 t hpt hch hcount hps hc
    obtain ⟨k0, d⟩ := kd
    cases d with
    | dict p =>
      have hp : pipTruthy (Dep.dict p) = false := hpt (k0, .dict p) (by simp)
      have step : envSplitLoop order (((k0, Dep.dict p) :: rest) ++
          (k, .str s) :: tb) dl chans pv =
          envSplitLoop order (rest ++ (k, .str s) :: tb) dl chans pv := by
        simp only [List.cons_append, envSplitLoop, hp, Bool.false_eq_true,
          if_false, List.append_eq]
      rw [step]
      refine ih k s tb dl chans pv c p1 t
        (fun x hx => hpt x (by simp [hx]))
        (fun x hx => hch x (by simp [hx])) ?_ hps hc
      intro d
      have := hcount d
      rwa [countQ_cons_unqual _ _ _ _ (by rfl)] at this
    | str s0 =>
      rcases hps0 : pySplitColons s0 with _ | ⟨c0, _ | ⟨q1, t0⟩⟩
      · have step : envSplitLoop order (((k0, Dep.str s0) :: rest) ++
            (k, .str s) :: tb) dl chans pv =
            envSplitLoop order (rest ++ (k, .str s) :: tb) dl chans pv := by
          simp only [List.cons_append, envSplitLoop, hps0, List.append_eq]
        rw [step]
        refine ih k s tb dl chans pv c p1 t
          (fun x hx => hpt x (by simp [hx]))
          (fun x hx => hch x (by simp [hx])) ?_ hps hc
        intro d
        have := hcount d
        rwa [countQ_cons_unqual _ _ _ _ (by simp [isQualified, hps0])] at this
      · have step : envSplitLoop order (((k0, Dep.str s0) :: rest) ++
            (k, .str s) :: tb) dl chans pv =
            envSplitLoop order (rest ++ (k, .str s) :: tb) dl chans pv := by
          simp only [List.cons_append, envSplitLoop, hps0, List.append_eq]
        rw [step]
        refine ih k s tb dl chans pv c p1 t
          (fun x hx => hpt x (by simp [hx]))
          (fun x hx => hch x (by simp [hx])) ?_ hps hc
        intro d
        have := hcount d
        rwa [countQ_cons_unqual _ _ _ _ (by simp [isQualified, hps0])] at this
      · have hqual : isQualified (Dep.str s0) = true :=
          isQualified_of_split s0 c0 q1 t0 hps0
        have hc0 : c0 ∈ order := by
          refine hch (k0, .str s0) (by simp) c0 ?_
          show qualChannel (.str s0) = some c0
          have : qualChannel (.str s0) = (match pySplitColons s0 with
            | c :: _ :: _ => some c
            | _ => none) := rfl
          rw [this, hps0]
        have hmem : Dep.str s0 ∈ dl := by
          have h1 := hcount (Dep.str s0)
          rw [countQ_cons_qual_self _ _ _ hqual] at h1
          exact List.count_pos_iff.mp (by omega)
        have hrm : removeFirst dl (Dep.str s0) =
            some (dl.erase (Dep.str s0)) := by
          simp [removeFirst, hmem]
        have step : envSplitLoop order (((k0, Dep.str s0) :: rest) ++
            (k, .str s) :: tb) dl chans pv =
            envSplitLoop order (rest ++ (k, .str s) :: tb)
              (dl.erase (Dep.str s0))
              (updateChan chans c0 (chans c0 ++ [q1])) pv := by
          simp only [List.cons_append, envSplitLoop, hps0, hc0, if_true, hrm,
            List.append_eq]
        rw [step]
        refine ih k s tb (dl.erase (Dep.str s0)) _ pv c p1 t
          (fun x hx => hpt x (by simp [hx]))
          (fun x hx => hch x (by simp [hx])) ?_ hps hc
        intro d
        by_cases hd : d = Dep.str s0
        · subst hd
          have h1 := hcount (Dep.str s0)
          rw [countQ_cons_qual_self _ _ _ hqual] at h1
          rw [List.count_erase_self]
          omega
        · have h1 := hcount d
          rw [countQ_cons_qual_ne _ _ _ _ hqual hd] at h1
          rw [List.count_erase_of_ne hd]
          exact h1

lemma count_filter_le2 {α : Type} [DecidableEq α] (p : α → Bool) (l : List α)
    (a : α) : (l.filter p).count a ≤ l.count a := by
  induction l with
  | nil => simp
  | cons x rest ih =>
    by_cases hx : p x
    · simp only [List.filter_cons, if_pos hx, List.count_cons]
      split <;> omega
    · simp only [List.filter_cons, if_neg hx, List.count_cons]
      split <;> omega

/-- Processing the prefix of the work list up to and including the (at most
one) truthy pip mapping: provided the prefix has no channel-qualified
entries, the loop reaches the remainder of the work list with the live list
still containing all of the remaining dependencies. -/
lemma envSplit_phase1 (order : List String) (l₁ l₂ : List Dep)
    (h1 : ∀ d ∈ l₁, isQualified d = false)
    (h2 : (l₁.filter pipTruthy).length ≤ 1) :
    ∃ (dl0 : List Dep) (pv : Option Dep) (m : Nat),
      (∀ d : Dep, l₂.count d ≤ dl0.count d) ∧
      envSplitLoop order (pyEnumFrom 0 (l₁ ++ l₂)) (l₁ ++ l₂)
        (fun _ => []) none =
      envSplitLoop order (pyEnumFrom m l₂) dl0 (fun _ => []) pv := by
  rcases filter_le_one_decomp pipTruthy l₁ h2 with hall |
    ⟨u, d0, w, heq, hd0, hu, hw⟩
  · refine ⟨l₁ ++ l₂, none, l₁.length, ?_, ?_⟩
    · intro d
      rw [List.count_append]
      omega
    · rw [pyEnumFrom_append, Nat.zero_add]
      exact envSplitLoop_skip order _ _ _ _ _ (by
        intro kd hkd
        have hmem := mem_pyEnumFrom l₁ 0 kd hkd
        exact ⟨hall kd.2 hmem, h1 kd.2 hmem⟩)
  · subst heq
    have hassoc : (u ++ d0 :: w) ++ l₂ = u ++ d0 :: (w ++ l₂) := by simp
    refine ⟨u ++ (w ++ l₂), some d0, u.length + 1 + w.length, ?_, ?_⟩
    · intro d
      rw [List.count_append, List.count_append]
      omega
    · rw [hassoc, pyEnumFrom_append]
      rw [envSplitLoop_skip order _ _ _ _ _ (by
        intro kd hkd
        have hmem := mem_pyEnumFrom u 0 kd hkd
        exact ⟨hu kd.2 hmem, h1 kd.2 (by simp [hmem])⟩)]
      show envSplitLoop order ((0 + u.length, d0) ::
        pyEnumFrom (0 + u.length + 1) (w ++ l₂)) (u ++ d0 :: (w ++ l₂))
        (fun _ => []) none = _
      cases d0 with
      | str s => rw [show pipTruthy (Dep.str s) = false from rfl] at hd0
                 cases hd0
      | dict p =>
        have step : envSplitLoop order ((0 + u.length, Dep.dict p) ::
            pyEnumFrom (0 + u.length + 1) (w ++ l₂))
            (u ++ Dep.dict p :: (w ++ l₂)) (fun _ => []) none =
            envSplitLoop order (pyEnumFrom (0 + u.length + 1) (w ++ l₂))
              (u ++ (w ++ l₂)) (fun _ => []) (some (Dep.dict p)) := by
          have hpop : popAt (u ++ Dep.dict p :: (w ++ l₂)) (0 + u.length) =
              some (Dep.dict p, u ++ (w ++ l₂)) := by
            rw [Nat.zero_add]
            exact popAt_append u (Dep.dict p) (w ++ l₂)
          simp only [envSplitLoop, hd0, if_true, hpop]
        rw [step, pyEnumFrom_append]
        rw [envSplitLoop_skip order _ _ _ _ _ (by
          intro kd hkd
          have hmem := mem_pyEnumFrom w _ kd hkd
          exact ⟨hw kd.2 hmem, h1 kd.2 (by simp [hmem])⟩)]
        have : 0 + u.length + 1 + w.length = u.length + 1 + w.length := by
          omega
        rw [this]

/-- C7 (amended): provided the manifest's nested pip mapping (if any)
precedes every channel-qualified dependency — the placement `env_split`'s
index handling actually supports — (i) a qualified dependency naming a
channel outside the channel order makes `env_split` raise the error naming
that channel and dependency, and (ii) a manifest whose qualified
dependencies all name channels in the order splits without raising. -/
theorem c7_env_split_channel_validation :
    (∀ (l₁ a b : List Dep) (s : String) (order : List String) (c : String)
        (hasCO : Bool),
      (∀ d ∈ l₁, isQualified d = false) →
      (l₁.filter pipTruthy).length ≤ 1 →
      (∀ d ∈ a ++ .str s :: b, pipTruthy d = false) →
      (∀ d ∈ a, ∀ c', qualChannel d = some c' → c' ∈ order) →
      qualChannel (.str s) = some c →
      c ∉ order →
      env_split ⟨l₁ ++ (a ++ .str s :: b), hasCO⟩ order =
        .error (.channelMissing c s)) ∧
    (∀ (l₁ l₂ : List Dep) (order : List String),
      (∀ d ∈ l₁, isQualified d = false) →
      (l₁.filter pipTruthy).length ≤ 1 →
      (∀ d ∈ l₂, pipTruthy d = false) →
      (∀ d ∈ l₂, ∀ c, qualChannel d = some c → c ∈ order) →
      ∃ r, env_split ⟨l₁ ++ l₂, true⟩ order = .ok r) := by
  constructor
  · intro l₁ a b s order c hasCO h1 h2 h3 h4 hqc hc
    obtain ⟨p1, t, hps⟩ := qualChannel_str_elim s c hqc
    obtain ⟨dl0, pv, m, hcnt, hloop⟩ :=
      envSplit_phase1 order l₁ (a ++ .str s :: b) h1 h2
    have hta : envSplitLoop order (pyEnumFrom m (a ++ .str s :: b)) dl0
        (fun _ => []) pv = .error (.channelMissing c s) := by
      rw [pyEnumFrom_append]
      show envSplitLoop order (pyEnumFrom m a ++
        (m + a.length, Dep.str s) :: pyEnumFrom (m + a.length + 1) b) dl0
        (fun _ => []) pv = _
      refine envSplitLoop_first_offender order (pyEnumFrom m a)
        (m + a.length) s (pyEnumFrom (m + a.length + 1) b) dl0
        (fun _ => []) pv c p1 t ?_ ?_ ?_ hps hc
      · intro kd hkd
        exact h3 kd.2 (by simp [mem_pyEnumFrom a m kd hkd])
      · intro kd hkd
        exact h4 kd.2 (mem_pyEnumFrom a m kd hkd)
      · intro d
        rw [countQ_pyEnumFrom]
        calc (a.filter isQualified).count d ≤ a.count d :=
              count_filter_le2 isQualified a d
          _ ≤ (a ++ Dep.str s :: b).count d := by
              rw [List.count_append]; omega
          _ ≤ dl0.count d := hcnt d
    unfold env_split
    rw [hloop, hta]
  · intro l₁ l₂ order h1 h2 h3 h4
    obtain ⟨dl0, pv, m, hcnt, hloop⟩ := envSplit_phase1 order l₁ l₂ h1 h2
    obtain ⟨res, hres⟩ := envSplitLoop_ok order (pyEnumFrom m l₂) dl0
      (fun _ => []) pv
      (fun kd hkd => h3 kd.2 (mem_pyEnumFrom l₂ m kd hkd))
      (fun kd hkd => h4 kd.2 (mem_pyEnumFrom l₂ m kd hkd))
      (by
        intro d
        rw [countQ_pyEnumFrom]
        exact Nat.le_trans (count_filter_le2 isQualified l₂ d) (hcnt d))
    obtain ⟨dl', chans', pv'⟩ := res
    refine ⟨⟨chans', pv', dl'⟩, ?_⟩
    unfold env_split
    rw [hloop, hres]
    rfl

/-- C7, counterexample to the claim as stated: in `c7Env` every qualified
dependency's channel (`a`, `b`) is in the channel order, yet `env_split`
raises: the two removals shift the list so that `deplist.pop(2)` for the
trailing pip mapping is out of range (`IndexError`), so the split does not
complete without raising. -/
theorem c7_counterexample :
    env_split c7Env ["defaults", "a", "b", "pip"] = .error .indexError := rfl

/-- Witness for C7 part (ii): a manifest with the pip mapping first and a
well-channelled qualified dependency splits successfully. -/
theorem c7_witness :
    ∃ r, env_split ⟨[Dep.dict (some ["p"]), Dep.str "conda-forge::pylint",
      Dep.str "numpy"], true⟩ ["defaults", "conda-forge"] = .ok r := by
  refine c7_env_split_channel_validation.2 [Dep.dict (some ["p"])]
    [Dep.str "conda-forge::pylint", Dep.str "numpy"]
    ["defaults", "conda-forge"] ?_ (by decide) ?_ ?_
  · intro d hd
    simp at hd
    subst hd
    rfl
  · intro d hd
    rcases List.mem_cons.mp hd with rfl | hd2
    · rfl
    · simp at hd2
      subst hd2
      rfl
  · intro d hd c hq
    rcases List.mem_cons.mp hd with rfl | hd2
    · have : qualChannel (Dep.str "conda-forge::pylint") =
          some "conda-forge" := by decide
      rw [this] at hq
      simp at hq
      subst hq
      simp
    · simp at hd2
      subst hd2
      have : qualChannel (Dep.str "numpy") = none := by decide
      rw [this] at hq
      cases hq

lemma to_explicit_conda_isSome (p : LockSpecData) (hm : p.manager = "conda")
    (hu : p.url.isSome) (hmd : p.md5.isSome) : (to_explicit p).isSome := by
  obtain ⟨u, hu2⟩ := Option.isSome_iff_exists.mp hu
  obtain ⟨m0, hm0⟩ := Option.isSome_iff_exists.mp hmd
  simp [to_explicit, hm, hu2, hm0]

lemma renderStr_empty_iff (l : List LockSpecData) :
    renderStr l = "" ↔ l = [] := by
  cases l with
  | nil => simp [renderStr]
  | cons p rest =>
    simp only [renderStr]
    constructor
    · intro h
      exfalso
      have h2 := congrArg String.data h
      simp only [String.data_append] at h2
      simp at h2
    · intro h
      cases h

lemma dictEqB_nil (d : List (String × String)) :
    dictEqB d [] = d.isEmpty := by
  cases d with
  | nil => rfl
  | cons kv rest => simp [dictEqB, dictLookup]

lemma selected_empty_iff (l : List LockSpecData) (m : String) (b : Bool) :
    selectedEntries l m b = [] ↔
      ∀ p ∈ l, ¬(p.manager = m ∧ hash_exists p = b) := by
  unfold selectedEntries
  rw [filter_nil_iff]
  constructor
  · intro h p hp ⟨h1, h2⟩
    have := h p hp
    simp [h1, h2] at this
  · intro h p hp
    by_cases h1 : p.manager = m
    · have h2 : hash_exists p ≠ b := fun hb => (h p hp) ⟨h1, hb⟩
      simp [h1, beq_eq_false_iff_ne, h2]
    · simp [h1]

lemma pip_filter_empty_of_selected (l : List LockSpecData)
    (ht : selectedEntries l "pip" true = [])
    (hf : selectedEntries l "pip" false = []) :
    l.filter (fun p => p.manager == "pip") = [] := by
  rw [filter_nil_iff]
  intro p hp
  by_cases hm : p.manager = "pip"
  · exfalso
    cases hb : hash_exists p with
    | true => exact (selected_empty_iff l "pip" true).mp ht p hp ⟨hm, hb⟩
    | false => exact (selected_empty_iff l "pip" false).mp hf p hp ⟨hm, hb⟩
  · simp [hm]

/-- The drift classification of the pip dict comparison: a name present in
both dicts with differing values is reported as a version mismatch and is
in neither missing set. -/
lemma pip_drift_classification (envD lockD : List (String × String))
    (n v1 v2 : String) (h1 : dictLookup envD n = some v1)
    (h2 : dictLookup lockD n = some v2) (hne : v1 ≠ v2) :
    n ∈ (pip_drift_report envD lockD).2.2 ∧
    n ∉ (pip_drift_report envD lockD).1 ∧
    n ∉ (pip_drift_report envD lockD).2.1 := by
  unfold dictLookup at h1 h2
  obtain ⟨q, hq, hqv⟩ : ∃ q, envD.find? (fun p => p.1 == n) = some q ∧
      q.2 = v1 := by
    cases hf : envD.find? (fun p => p.1 == n) with
    | none => rw [hf] at h1; cases h1
    | some q => rw [hf] at h1; exact ⟨q, rfl, by simpa using h1⟩
  obtain ⟨r, hr, hrv⟩ : ∃ r, lockD.find? (fun p => p.1 == n) = some r ∧
      r.2 = v2 := by
    cases hf : lockD.find? (fun p => p.1 == n) with
    | none => rw [hf] at h2; cases h2
    | some r => rw [hf] at h2; exact ⟨r, rfl, by simpa using h2⟩
  have hqn : q.1 = n := by simpa using List.find?_some hq
  have hrn : r.1 = n := by simpa using List.find?_some hr
  have hqmem : q ∈ envD := List.mem_of_find?_eq_some hq
  have hrmem : r ∈ lockD := List.mem_of_find?_eq_some hr
  have hlockAny : lockD.any (fun p => p.1 == n) = true := by
    rw [List.any_eq_true]
    exact ⟨r, hrmem, by simp [hrn]⟩
  have henvAny : envD.any (fun p => p.1 == n) = true := by
    rw [List.any_eq_true]
    exact ⟨q, hqmem, by simp [hqn]⟩
  refine ⟨?_, ?_, ?_⟩
  · unfold pip_drift_report
    simp only [List.mem_map]
    refine ⟨q, ?_, hqn⟩
    rw [List.mem_filter]
    refine ⟨hqmem, ?_⟩
    have hlook : dictLookup lockD q.1 = some v2 := by
      unfold dictLookup
      rw [hqn, hr]
      simp [hrv]
    rw [hlook]
    show (v2 != q.2) = true
    rw [hqv]
    exact bne_iff_ne.mpr (Ne.symm hne)
  · unfold pip_drift_report
    intro hmem
    simp only [List.mem_filter, List.mem_map] at hmem
    obtain ⟨hk, hpred⟩ := hmem
    rw [hlockAny] at hpred
    cases hpred
  · unfold pip_drift_report
    intro hmem
    simp only [List.mem_filter, List.mem_map] at hmem
    obtain ⟨hk, hpred⟩ := hmem
    rw [henvAny] at hpred
    cases hpred

/-- The body of `env_lockfile_check` once the generation step's result is
fixed. -/
lemma env_lockfile_check_ok_eq (out : String) (envL : List EnvListPkg)
    (entries : List LockSpecData) (c : String) (ph pnh : Option String)
    (hr : render_explicit entries = .ok (c, ph, pnh)) :
    env_lockfile_check out envL entries true true =
      (if 1 + (if ph.isSome then 1 else 0) +
          (if pnh.isSome then 1 else 0) > 1 then
        .ok ((decide
            (((pySplitLines out).filter fun x =>
              strContains x "https").toFinset =
             ((pySplitLines c).filter fun x =>
              strContains x "https").toFinset)) &&
          dictEqB (envPipDict envL) (lockPipDict entries))
      else if !(envPipDict envL).isEmpty then .ok false
      else .ok (decide
            (((pySplitLines out).filter fun x =>
              strContains x "https").toFinset =
             ((pySplitLines c).filter fun x =>
              strContains x "https").toFinset))) := by
  unfold env_lockfile_check
  rw [hr]
  rfl

/-- C4: with the upstream checks passed and a lock file whose entries are
consistent and carry urls, `env_lockfile_check` succeeds iff the set of
https-bearing explicit lines of the environment equals the set rendered
from the lock file and the pip name-to-version dicts agree; and a pip
package present in both dicts with differing versions is classified as a
version mismatch, not as missing. -/
theorem c4_env_lockfile_check_characterization
    (envExplicitOut : String) (envCondaList : List EnvListPkg)
    (lockEntries : List LockSpecData)
    (hcons : ∀ p ∈ lockEntries, check_consistency p = true)
    (hurl : ∀ p ∈ lockEntries, p.url.isSome) :
    (env_lockfile_check envExplicitOut envCondaList lockEntries true true =
        .ok true ↔
      (envExplicitSet envExplicitOut = condaRenderSet lockEntries ∧
        dictEqB (envPipDict envCondaList) (lockPipDict lockEntries) = true)) ∧
    (∀ (envD lockD : List (String × String)) (n v1 v2 : String),
      dictLookup envD n = some v1 → dictLookup lockD n = some v2 →
      v1 ≠ v2 →
      n ∈ (pip_drift_report envD lockD).2.2 ∧
      n ∉ (pip_drift_report envD lockD).1 ∧
      n ∉ (pip_drift_report envD lockD).2.1) := by
  refine ⟨?_, fun envD lockD n v1 v2 h1 h2 hne =>
    pip_drift_classification envD lockD n v1 v2 h1 h2 hne⟩
  have hrc : json_to_explicit lockEntries "conda" true =
      .ok (renderStr (selectedEntries lockEntries "conda" true)) := by
    refine json_to_explicit_char _ _ _ hcons ?_
    intro p hp hm hh
    have hmd : p.md5.isSome := by simpa [hash_exists, hm] using hh
    exact to_explicit_conda_isSome p hm (hurl p hp) hmd
  have hrp1 : json_to_explicit lockEntries "pip" true =
      .ok (renderStr (selectedEntries lockEntries "pip" true)) :=
    json_to_explicit_char _ _ _ hcons
      (fun p hp hm _ => to_explicit_pip_isSome p hm (hurl p hp))
  have hrp0 : json_to_explicit lockEntries "pip" false =
      .ok (renderStr (selectedEntries lockEntries "pip" false)) :=
    json_to_explicit_char _ _ _ hcons
      (fun p hp hm _ => to_explicit_pip_isSome p hm (hurl p hp))
  have hr : render_explicit lockEntries = .ok
      (explicitHeader ++ renderStr (selectedEntries lockEntries "conda" true),
       (if (renderStr (selectedEntries lockEntries "pip" true)).isEmpty
        then none
        else some (renderStr (selectedEntries lockEntries "pip" true))),
       (if (renderStr (selectedEntries lockEntries "pip" false)).isEmpty
        then none
        else some (renderStr (selectedEntries lockEntries "pip" false)))) := by
    unfold render_explicit
    rw [hrc, hrp1, hrp0]
  rw [env_lockfile_check_ok_eq envExplicitOut envCondaList lockEntries _ _ _
    hr]
  by_cases hT : selectedEntries lockEntries "pip" true = []
  · by_cases hF : selectedEntries lockEntries "pip" false = []
    · have hpipnil : lockPipDict lockEntries = [] := by
        unfold lockPipDict
        rw [pip_filter_empty_of_selected lockEntries hT hF]
        rfl
      simp only [hT, hF, hpipnil, dictEqB_nil]
      by_cases hcd : (envPipDict envCondaList).isEmpty
      · simp [hcd, envExplicitSet, condaRenderSet, hT]
      · simp [hcd, envExplicitSet, condaRenderSet, hT]
    · have hFs : (renderStr (selectedEntries lockEntries "pip" false)).isEmpty
          = false :=
        Bool.eq_false_iff.mpr (fun hEmp =>
          hF ((renderStr_empty_iff _).mp ((String.isEmpty_iff _).mp hEmp)))
      simp [hT, hFs, envExplicitSet, condaRenderSet]
  · have hTs : (renderStr (selectedEntries lockEntries "pip" true)).isEmpty
        = false :=
      Bool.eq_false_iff.mpr (fun hEmp =>
        hT ((renderStr_empty_iff _).mp ((String.isEmpty_iff _).mp hEmp)))
    by_cases hF : selectedEntries lockEntries "pip" false = []
    · simp [hTs, hF, renderStr, show ("" : String).isEmpty = true from rfl,
        envExplicitSet, condaRenderSet]
    · have hFs : (renderStr (selectedEntries lockEntries "pip" false)).isEmpty
          = false :=
        Bool.eq_false_iff.mpr (fun hEmp =>
          hF ((renderStr_empty_iff _).mp ((String.isEmpty_iff _).mp hEmp)))
      simp [hTs, hFs, envExplicitSet, condaRenderSet]

/-- Witness for C4 at a concrete in-sync environment and lock file. -/
theorem c4_witness :
    env_lockfile_check c4EnvOut [⟨"requests", "2.0", "pypi"⟩] c4Entries
      true true = .ok true := by
  refine ((c4_env_lockfile_check_characterization c4EnvOut
    [⟨"requests", "2.0", "pypi"⟩] c4Entries ?_ ?_).1).mpr ⟨?_, ?_⟩
  · intro p hp
    simp [c4Entries] at hp
    rcases hp with rfl | rfl <;> decide
  · intro p hp
    simp [c4Entries] at hp
    rcases hp with rfl | rfl <;> decide
  · decide
  · decide

end CondaOps
